import Mathlib

/-!
Verification of the MysticCore testable core: the `StatusCode` enumeration with
its bidirectional string conversion (include/mystic/status/status_code.hpp) and
the fixed-width `Float32` wrapper with its guarded arithmetic operators
(include/mystic/types/internal/floats/float32.hpp).

IEEE-754 binary floating-point values are modelled as rational numbers together
with an explicit round-to-nearest-even operation at 24-bit (float) and 53-bit
(double) mantissa precision.  Finite-range overflow and non-finite values are
outside the rational model; every quantity handled by the verified claims stays
well inside the finite range of both formats.
-/

namespace MysticCore

/-- Round a rational to the nearest integer, ties to even
(the IEEE-754 default rounding direction). -/
def rhe (q : ℚ) : ℤ :=
  if Int.fract q < 1/2 then ⌊q⌋
  else if 1/2 < Int.fract q then ⌊q⌋ + 1
  else if ⌊q⌋ % 2 = 0 then ⌊q⌋ else ⌊q⌋ + 1

/-- Round a rational to a binary floating-point value with a `p`-bit mantissa
and unbounded exponent: normalise `|q|` into `[2^(p-1), 2^p)`, round the
mantissa to the nearest integer (ties to even) and scale back. -/
def roundPrec (p : ℕ) (q : ℚ) : ℚ :=
  if q = 0 then 0
  else (if q < 0 then (-1 : ℚ) else 1) *
    (rhe (|q| * 2 ^ ((p : ℤ) - 1 - Int.log 2 |q|)) : ℚ) *
    2 ^ (Int.log 2 |q| + 1 - (p : ℤ))

/-- Rounding a C++ `float` result: 24-bit mantissa. -/
def fl32 (q : ℚ) : ℚ := roundPrec 24 q

/-- Rounding a C++ `double` result: 53-bit mantissa. -/
def fl64 (q : ℚ) : ℚ := roundPrec 53 q

/-- `q` is exactly representable with a `p`-bit mantissa. -/
def isRepr (p : ℕ) (q : ℚ) : Prop :=
  q = 0 ∨ ∃ m k : ℤ, q = (m : ℚ) * 2 ^ k ∧ |m| < 2 ^ p

/-- `static_cast` from a floating-point value to an integer type truncates
toward zero. -/
def truncToInt (q : ℚ) : ℤ := if 0 ≤ q then ⌊q⌋ else ⌈q⌉

/-- `FLT_EPSILON`, the machine epsilon of a 32-bit float. -/
def FLT_EPSILON : ℚ := 1 / 2 ^ 23

/-- `DBL_EPSILON`, the machine epsilon of a 64-bit double. -/
def DBL_EPSILON : ℚ := 1 / 2 ^ 52

/-- The `Float32` wrapper class (float32.hpp): a value-type box around a single
C++ `float`, here the rational the float holds. -/
structure Float32 where
  m_raw_value : ℚ

/-- Member function `Value()`: returns the internal raw value. -/
def Float32.Value (a : Float32) : ℚ := a.m_raw_value

/-- The converting constructor `Float32(ArithmeticType val)`: performs
`static_cast<float>(val)` (rounding to float precision) and stores it. -/
def Float32.ofRat (val : ℚ) : Float32 := ⟨fl32 val⟩

/-- Modelled from the spec: the `MYSTIC_CHECK` assertion primitive is not under
src/.  Per the spec it is the debug-only check collaborator that traps (aborts
the process) when the guarded error condition holds; a trapped computation is
`none`.  Division results below model the debug/assert build, where the check
is active. -/
def MYSTIC_CHECK (cond : Prop) [Decidable cond] (value : α) : Option α :=
  if cond then none else some value

/-- `operator+(const Float32&, const ArithmeticType&)`, narrow path
(`sizeof(ArithmeticType) <= sizeof(float)`), instantiated at
`ArithmeticType = float`: `lhs.Value() + rhs` is one hardware float addition
and `static_cast<Float32>` stores it through the rounding constructor. -/
def addF32Float (lhs : Float32) (rhs : ℚ) : Float32 :=
  Float32.ofRat (fl32 (lhs.Value + rhs))

/-- `operator+(const ArithmeticType&, const Float32&)`, narrow path at
`ArithmeticType = float`. -/
def addFloatF32 (lhs : ℚ) (rhs : Float32) : Float32 :=
  Float32.ofRat (fl32 (lhs + rhs.Value))

/-- Narrow path at `ArithmeticType = int32_t`: the usual arithmetic conversions
first convert the integer to `float` (a rounding), then add in `float`. -/
def addF32Int32 (lhs : Float32) (rhs : ℤ) : Float32 :=
  Float32.ofRat (fl32 (lhs.Value + fl32 (rhs : ℚ)))

/-- Narrow path, symmetric overload, at `ArithmeticType = int32_t`. -/
def addInt32F32 (lhs : ℤ) (rhs : Float32) : Float32 :=
  Float32.ofRat (fl32 (fl32 (lhs : ℚ) + rhs.Value))

/-- `operator+(const Float32&, const ArithmeticType&)`, widening path
(`sizeof(ArithmeticType) > sizeof(float)`), instantiated at
`ArithmeticType = double`: `lhs.Value()` converts exactly to `double`, the sum
is one double addition, and `static_cast<double>` is the identity. -/
def addF32Double (lhs : Float32) (rhs : ℚ) : ℚ :=
  fl64 (lhs.Value + rhs)

/-- Widening path, symmetric overload, at `ArithmeticType = double`. -/
def addDoubleF32 (lhs : ℚ) (rhs : Float32) : ℚ :=
  fl64 (lhs + rhs.Value)

/-- Widening path at `ArithmeticType = int64_t`: by the usual arithmetic
conversions the `int64_t` operand converts to `float`, the sum is computed in
`float`, and `static_cast<int64_t>` truncates the float result toward zero. -/
def addF32Int64 (lhs : Float32) (rhs : ℤ) : ℤ :=
  truncToInt (fl32 (lhs.Value + fl32 (rhs : ℚ)))

/-- Widening path, symmetric overload, at `ArithmeticType = int64_t`. -/
def addInt64F32 (lhs : ℤ) (rhs : Float32) : ℤ :=
  truncToInt (fl32 (fl32 (lhs : ℚ) + rhs.Value))

/-- `operator/(const Float32&, const ArithmeticType&)`, narrow path at
`ArithmeticType = float`: guarded by
`MYSTIC_CHECK(std::abs(rhs) < FLT_EPSILON, ...)`, then
`static_cast<Float32>(lhs.Value() / rhs)`. -/
def divF32Float (lhs : Float32) (rhs : ℚ) : Option Float32 :=
  MYSTIC_CHECK (|rhs| < FLT_EPSILON) (Float32.ofRat (fl32 (lhs.Value / rhs)))

/-- `operator/(const Float32&, const ArithmeticType&)`, widening path at
`ArithmeticType = double`: guarded by
`MYSTIC_CHECK(std::abs(rhs) < FLT_EPSILON, ...)` where `rhs` is the double
denominator, then `static_cast<double>(lhs.Value() / rhs)` computed in
double. -/
def divF32Double (lhs : Float32) (rhs : ℚ) : Option ℚ :=
  MYSTIC_CHECK (|rhs| < FLT_EPSILON) (fl64 (lhs.Value / rhs))

/-- `operator/(const ArithmeticType&, const Float32&)`, narrow path at
`ArithmeticType = float`: guarded by
`MYSTIC_CHECK(std::abs(rhs.Value()) < FLT_EPSILON, ...)`. -/
def divFloatF32 (lhs : ℚ) (rhs : Float32) : Option Float32 :=
  MYSTIC_CHECK (|rhs.Value| < FLT_EPSILON) (Float32.ofRat (fl32 (lhs / rhs.Value)))

/-- `operator/(const ArithmeticType&, const Float32&)`, widening path at
`ArithmeticType = double`: guarded by
`MYSTIC_CHECK(std::abs(rhs.Value()) < FLT_EPSILON, ...)`. -/
def divDoubleF32 (lhs : ℚ) (rhs : Float32) : Option ℚ :=
  MYSTIC_CHECK (|rhs.Value| < FLT_EPSILON) (fl64 (lhs / rhs.Value))

/-- `enum class StatusCode` (status_code.hpp): the 16 gRPC-style status
codes. -/
inductive StatusCode where
  | OK
  | CANCELLED
  | INVALID_ARGUMENT
  | NOT_FOUND
  | ALREADY_EXISTS
  | PERMISSION_DENIED
  | UNAUTHENTICATED
  | OUT_OF_RANGE
  | DEADLINE_EXCEEDED
  | RESOURCE_EXHAUSTED
  | FAILED_PRECONDITION
  | ABORT
  | UNIMPLEMENTED
  | INTERNAL
  | UNAVAILABLE
  | DATA_LOSS
  deriving DecidableEq, Fintype

/-- The underlying `uint32_t` enumerator values assigned in the source,
`0x0000` through `0x000F`. -/
def StatusCode.toOrdinal : StatusCode → ℕ
  | .OK => 0x0000
  | .CANCELLED => 0x0001
  | .INVALID_ARGUMENT => 0x0002
  | .NOT_FOUND => 0x0003
  | .ALREADY_EXISTS => 0x0004
  | .PERMISSION_DENIED => 0x0005
  | .UNAUTHENTICATED => 0x0006
  | .OUT_OF_RANGE => 0x0007
  | .DEADLINE_EXCEEDED => 0x0008
  | .RESOURCE_EXHAUSTED => 0x0009
  | .FAILED_PRECONDITION => 0x000A
  | .ABORT => 0x000B
  | .UNIMPLEMENTED => 0x000C
  | .INTERNAL => 0x000D
  | .UNAVAILABLE => 0x000E
  | .DATA_LOSS => 0x000F

/-- The 16 enumerators in declaration order. -/
def allStatusCodes : List StatusCode :=
  [.OK, .CANCELLED, .INVALID_ARGUMENT, .NOT_FOUND, .ALREADY_EXISTS,
   .PERMISSION_DENIED, .UNAUTHENTICATED, .OUT_OF_RANGE, .DEADLINE_EXCEEDED,
   .RESOURCE_EXHAUSTED, .FAILED_PRECONDITION, .ABORT, .UNIMPLEMENTED,
   .INTERNAL, .UNAVAILABLE, .DATA_LOSS]

/-- The 16 canonical display strings in declaration order. -/
def canonicalStrings : List String :=
  ["OK", "CANCELLED", "INVALID ARGUMENT", "NOT FOUND", "ALREADY EXISTS",
   "PERMISSION DENIED", "UNAUTHENTICATED", "OUT OF RANGE", "DEADLINE EXCEEDED",
   "RESOURCE EXHAUSTED", "FAILED PRECONDITION", "ABORT", "UNIMPLEMENTED",
   "INTERNAL", "UNAVAILABLE", "DATA LOSS"]

/-- `to_string(const StatusCode&)`: the switch over the 16 enumerators
(status_code.hpp). -/
def to_string : StatusCode → String
  | .OK => "OK"
  | .CANCELLED => "CANCELLED"
  | .INVALID_ARGUMENT => "INVALID ARGUMENT"
  | .NOT_FOUND => "NOT FOUND"
  | .ALREADY_EXISTS => "ALREADY EXISTS"
  | .PERMISSION_DENIED => "PERMISSION DENIED"
  | .UNAUTHENTICATED => "UNAUTHENTICATED"
  | .OUT_OF_RANGE => "OUT OF RANGE"
  | .DEADLINE_EXCEEDED => "DEADLINE EXCEEDED"
  | .RESOURCE_EXHAUSTED => "RESOURCE EXHAUSTED"
  | .FAILED_PRECONDITION => "FAILED PRECONDITION"
  | .ABORT => "ABORT"
  | .UNIMPLEMENTED => "UNIMPLEMENTED"
  | .INTERNAL => "INTERNAL"
  | .UNAVAILABLE => "UNAVAILABLE"
  | .DATA_LOSS => "DATA LOSS"

/-- The same `to_string` switch viewed on the raw `uint32_t` enumerator value,
as reached by a value produced through an unsafe cast; the `default` branch
calls `mystic::unreachable()`.
Modelled from the spec: `mystic::unreachable()` (not under src/) is the
fatal-trap primitive for unreachable code paths; a trapped call is `none`. -/
def to_string_code (n : ℕ) : Option String :=
  if n = 0x0000 then some "OK"
  else if n = 0x0001 then some "CANCELLED"
  else if n = 0x0002 then some "INVALID ARGUMENT"
  else if n = 0x0003 then some "NOT FOUND"
  else if n = 0x0004 then some "ALREADY EXISTS"
  else if n = 0x0005 then some "PERMISSION DENIED"
  else if n = 0x0006 then some "UNAUTHENTICATED"
  else if n = 0x0007 then some "OUT OF RANGE"
  else if n = 0x0008 then some "DEADLINE EXCEEDED"
  else if n = 0x0009 then some "RESOURCE EXHAUSTED"
  else if n = 0x000A then some "FAILED PRECONDITION"
  else if n = 0x000B then some "ABORT"
  else if n = 0x000C then some "UNIMPLEMENTED"
  else if n = 0x000D then some "INTERNAL"
  else if n = 0x000E then some "UNAVAILABLE"
  else if n = 0x000F then some "DATA LOSS"
  else none

/-- Modelled from the spec: `mystic::string_utils::to_uppercase` (not under
src/), the uppercasing string-transform collaborator used by `from_string`;
ASCII lowercase letters map to their uppercase forms, all other characters are
kept unchanged.  This is the single-character map. -/
def upChar (c : Char) : Char :=
  if 97 ≤ c.toNat ∧ c.toNat ≤ 122 then Char.ofNat (c.toNat - 32) else c

/-- Modelled from the spec: `to_uppercase` applied to a whole string. -/
def to_uppercase (s : String) : String :=
  ⟨s.data.map upChar⟩

/-- The if-else comparison chain of `from_string` (status_code.hpp), operating
on the already-uppercased input `str_upper`; the final `else` returns
`StatusCode::OK`. -/
def from_string_upper (str_upper : String) : StatusCode :=
  if str_upper = "OK" then .OK
  else if str_upper = "CANCELLED" then .CANCELLED
  else if str_upper = "INVALID ARGUMENT" then .INVALID_ARGUMENT
  else if str_upper = "NOT FOUND" then .NOT_FOUND
  else if str_upper = "ALREADY EXISTS" then .ALREADY_EXISTS
  else if str_upper = "PERMISSION DENIED" then .PERMISSION_DENIED
  else if str_upper = "UNAUTHENTICATED" then .UNAUTHENTICATED
  else if str_upper = "OUT OF RANGE" then .OUT_OF_RANGE
  else if str_upper = "DEADLINE EXCEEDED" then .DEADLINE_EXCEEDED
  else if str_upper = "RESOURCE EXHAUSTED" then .RESOURCE_EXHAUSTED
  else if str_upper = "FAILED PRECONDITION" then .FAILED_PRECONDITION
  else if str_upper = "ABORT" then .ABORT
  else if str_upper = "UNIMPLEMENTED" then .UNIMPLEMENTED
  else if str_upper = "INTERNAL" then .INTERNAL
  else if str_upper = "UNAVAILABLE" then .UNAVAILABLE
  else if str_upper = "DATA LOSS" then .DATA_LOSS
  else .OK

/-- `from_string(const string&)` (status_code.hpp): uppercase the input for a
case-agnostic comparison, then run the comparison chain. -/
def from_string (str : String) : StatusCode :=
  from_string_upper (to_uppercase str)

theorem rhe_intCast (n : ℤ) : rhe (n : ℚ) = n := by
  simp [rhe, Int.fract_intCast]

theorem floor_le_rhe (q : ℚ) : ⌊q⌋ ≤ rhe q := by
  unfold rhe
  split_ifs <;> omega

theorem rhe_le_floor_add_one (q : ℚ) : rhe q ≤ ⌊q⌋ + 1 := by
  unfold rhe
  split_ifs <;> omega

theorem two_zpow_pos (k : ℤ) : (0 : ℚ) < 2 ^ k :=
  zpow_pos (by norm_num) k

theorem two_zpow_ne_zero (k : ℤ) : (2 : ℚ) ^ k ≠ 0 :=
  ne_of_gt (two_zpow_pos k)

/-- The sign factor used by `roundPrec` recombines with `|m|` to give `m`. -/
theorem sign_mul_abs {q : ℚ} {m k : ℤ} (hq : q = (m : ℚ) * 2 ^ k) (hm0 : m ≠ 0) :
    (if q < 0 then (-1 : ℚ) else 1) * (|m| : ℚ) = (m : ℚ) := by
  rcases lt_trichotomy m 0 with hm | hm | hm
  · have hmq : (m : ℚ) < 0 := by exact_mod_cast hm
    have hqneg : q < 0 := by
      rw [hq]
      exact mul_neg_of_neg_of_pos hmq (two_zpow_pos k)
    rw [if_pos hqneg, abs_of_neg hmq]
    ring
  · exact absurd hm hm0
  · have hmq : (0 : ℚ) < (m : ℚ) := by exact_mod_cast hm
    have hqpos : 0 < q := by
      rw [hq]
      exact mul_pos hmq (two_zpow_pos k)
    rw [if_neg (not_lt.mpr (le_of_lt hqpos)), abs_of_pos hmq]
    ring

/-- Exactness: rounding is the identity on representable rationals. -/
theorem roundPrec_eq_of_isRepr {p : ℕ} {q : ℚ} (h : isRepr p q) :
    roundPrec p q = q := by
  rcases h with h0 | ⟨m, k, hq, hm⟩
  · simp [roundPrec, h0]
  by_cases hq0 : q = 0
  · simp [roundPrec, hq0]
  have hm0 : m ≠ 0 := by
    rintro rfl
    simp at hq
    exact hq0 hq
  have habs : |q| = (|m| : ℚ) * 2 ^ k := by
    rw [hq, abs_mul, abs_of_pos (two_zpow_pos k)]
  have hqpos : (0 : ℚ) < |q| := abs_pos.mpr hq0
  have hlt : |q| < (2 : ℚ) ^ (k + (p : ℤ)) := by
    rw [habs, zpow_add₀ (two_ne_zero : (2 : ℚ) ≠ 0) k (p : ℤ)]
    have hmlt : (|m| : ℚ) < 2 ^ (p : ℤ) := by
      rw [zpow_natCast]
      exact_mod_cast hm
    calc (|m| : ℚ) * 2 ^ k < 2 ^ (p : ℤ) * 2 ^ k :=
          mul_lt_mul_of_pos_right hmlt (two_zpow_pos k)
      _ = 2 ^ k * 2 ^ (p : ℤ) := mul_comm _ _
  set e : ℤ := Int.log 2 |q| with he
  have helt : e < k + p :=
    (Int.lt_zpow_iff_log_lt (b := 2) (by norm_num) hqpos).mp hlt
  set t : ℤ := k + ((p : ℤ) - 1 - e) with ht
  have ht0 : 0 ≤ t := by omega
  have hscaled : |q| * 2 ^ ((p : ℤ) - 1 - e) =
      ((|m| * 2 ^ t.toNat : ℤ) : ℚ) := by
    rw [habs, mul_assoc, ← zpow_add₀ (two_ne_zero : (2 : ℚ) ≠ 0) k, ← ht]
    push_cast
    rw [← zpow_natCast (2 : ℚ), Int.toNat_of_nonneg ht0]
  have hexp : t + (e + 1 - (p : ℤ)) = k := by omega
  unfold roundPrec
  rw [if_neg hq0, ← he, hscaled, rhe_intCast]
  push_cast
  rw [← zpow_natCast (2 : ℚ) t.toNat, Int.toNat_of_nonneg ht0]
  calc (if q < 0 then (-1 : ℚ) else 1) * ((|m| : ℚ) * 2 ^ t) * 2 ^ (e + 1 - (p : ℤ))
      = ((if q < 0 then (-1 : ℚ) else 1) * (|m| : ℚ)) * (2 ^ t * 2 ^ (e + 1 - (p : ℤ))) := by
        ring
    _ = (m : ℚ) * 2 ^ (t + (e + 1 - (p : ℤ))) := by
        rw [sign_mul_abs hq hm0, ← zpow_add₀ (two_ne_zero : (2 : ℚ) ≠ 0)]
    _ = (m : ℚ) * 2 ^ k := by rw [hexp]
    _ = q := hq.symm

theorem zpow_mul_zpow (a b : ℤ) : (2 : ℚ) ^ a * (2 : ℚ) ^ b = 2 ^ (a + b) :=
  (zpow_add₀ (two_ne_zero : (2 : ℚ) ≠ 0) a b).symm

/-- A signed mantissa within `[0, 2^p]` times a power of two is representable. -/
theorem isRepr_of_mantissa {p : ℕ} (hp : 0 < p) {m' : ℤ} (h0 : 0 ≤ m')
    (hle : m' ≤ 2 ^ p) {s : ℚ} (hs : s = 1 ∨ s = -1) (k : ℤ) :
    isRepr p (s * (m' : ℚ) * 2 ^ k) := by
  right
  rcases lt_or_eq_of_le hle with hlt | heq
  · refine ⟨if s = -1 then -m' else m', k, ?_, ?_⟩
    · rcases hs with hs1 | hs1 <;> rw [hs1] <;> norm_num
    · have : |if s = -1 then -m' else m'| = m' := by
        split_ifs <;> simp [abs_of_nonneg h0]
      rw [this]
      exact hlt
  · refine ⟨if s = -1 then -(2 ^ (p - 1)) else 2 ^ (p - 1), k + 1, ?_, ?_⟩
    · have hpp : p = (p - 1) + 1 := by omega
      have h2p : (2 : ℚ) ^ p = 2 ^ (p - 1) * 2 := by
        conv_lhs => rw [hpp]
        rw [pow_succ]
      have hm'q : ((m' : ℤ) : ℚ) = (2 : ℚ) ^ p := by
        rw [heq]
        push_cast
        ring
      rw [hm'q, zpow_add_one₀ (two_ne_zero : (2 : ℚ) ≠ 0), h2p]
      rcases hs with hs1 | hs1 <;> subst hs1 <;> norm_num <;> ring
    · have hlt2 : (2 : ℤ) ^ (p - 1) < 2 ^ p := by
        apply pow_lt_pow_right₀ (by norm_num)
        omega
      split_ifs <;> simp [abs_of_nonneg (le_of_lt (pow_pos (by norm_num : (0:ℤ) < 2) (p - 1)))] <;>
        exact hlt2

/-- The rounding output is always representable. -/
theorem isRepr_roundPrec {p : ℕ} (hp : 0 < p) (q : ℚ) : isRepr p (roundPrec p q) := by
  by_cases hq0 : q = 0
  · left
    simp [roundPrec, hq0]
  set e : ℤ := Int.log 2 |q| with he
  set scaled : ℚ := |q| * 2 ^ ((p : ℤ) - 1 - e) with hs
  have hqpos : (0 : ℚ) < |q| := abs_pos.mpr hq0
  have hlow : (2 : ℚ) ^ e ≤ |q| := Int.zpow_log_le_self (by norm_num) hqpos
  have hhigh : |q| < (2 : ℚ) ^ (e + 1) := Int.lt_zpow_succ_log_self (by norm_num) |q|
  have hsl : (0 : ℚ) < scaled := by
    rw [hs]
    exact mul_pos hqpos (two_zpow_pos _)
  have hsh : scaled < 2 ^ (p : ℤ) := by
    rw [hs]
    calc |q| * 2 ^ ((p : ℤ) - 1 - e) < 2 ^ (e + 1) * 2 ^ ((p : ℤ) - 1 - e) :=
          mul_lt_mul_of_pos_right hhigh (two_zpow_pos _)
      _ = 2 ^ (p : ℤ) := by
          rw [zpow_mul_zpow]
          congr 1
          omega
  have hcast : ((2 ^ p : ℤ) : ℚ) = (2 : ℚ) ^ (p : ℤ) := by
    push_cast
    exact (zpow_natCast 2 p).symm
  have hfl0 : 0 ≤ ⌊scaled⌋ := Int.floor_nonneg.mpr (le_of_lt hsl)
  have hflt : ⌊scaled⌋ < 2 ^ p := by
    apply Int.floor_lt.mpr
    rw [hcast]
    exact hsh
  have hm'0 : 0 ≤ rhe scaled := le_trans hfl0 (floor_le_rhe scaled)
  have hm'le : rhe scaled ≤ 2 ^ p := le_trans (rhe_le_floor_add_one scaled) (by omega)
  have hval : roundPrec p q =
      (if q < 0 then (-1 : ℚ) else 1) * (rhe scaled : ℚ) * 2 ^ (e + 1 - (p : ℤ)) := by
    rw [roundPrec, if_neg hq0, ← he, ← hs]
  rw [hval]
  apply isRepr_of_mantissa hp hm'0 hm'le _ (e + 1 - (p : ℤ))
  by_cases hqneg : q < 0
  · right
    rw [if_pos hqneg]
  · left
    rw [if_neg hqneg]

/-- Rounding is idempotent. -/
theorem roundPrec_idem {p : ℕ} (hp : 0 < p) (q : ℚ) :
    roundPrec p (roundPrec p q) = roundPrec p q :=
  roundPrec_eq_of_isRepr (isRepr_roundPrec hp q)

/-- Integers of magnitude below `2^p` round to themselves. -/
theorem roundPrec_intCast {p : ℕ} {n : ℤ} (hn : |n| < 2 ^ p) :
    roundPrec p (n : ℚ) = n :=
  roundPrec_eq_of_isRepr (Or.inr ⟨n, 0, by norm_num, hn⟩)

theorem fl32_intCast {n : ℤ} (hn : |n| < 2 ^ 24) : fl32 (n : ℚ) = n :=
  roundPrec_intCast hn

theorem fl32_idem (q : ℚ) : fl32 (fl32 q) = fl32 q :=
  roundPrec_idem (by norm_num) q

theorem Value_ofRat (v : ℚ) : (Float32.ofRat v).Value = fl32 v := rfl

theorem truncToInt_intCast (m : ℤ) : truncToInt (m : ℚ) = m := by
  unfold truncToInt
  split_ifs <;> simp

theorem MYSTIC_CHECK_eq_none_iff (cond : Prop) [Decidable cond] (v : α) :
    MYSTIC_CHECK cond v = none ↔ cond := by
  unfold MYSTIC_CHECK
  split_ifs with h <;> simp [h]

theorem MYSTIC_CHECK_eq_some (cond : Prop) [Decidable cond] (v : α)
    (h : ¬cond) : MYSTIC_CHECK cond v = some v := by
  unfold MYSTIC_CHECK
  rw [if_neg h]

theorem charOfNat_toNat_upper : ∀ n < 91, 65 ≤ n → (Char.ofNat n).toNat = n := by
  decide

theorem upChar_idem (c : Char) : upChar (upChar c) = upChar c := by
  by_cases h : 97 ≤ c.toNat ∧ c.toNat ≤ 122
  · have hstep : upChar c = Char.ofNat (c.toNat - 32) := by
      rw [upChar, if_pos h]
    have htn : (Char.ofNat (c.toNat - 32)).toNat = c.toNat - 32 :=
      charOfNat_toNat_upper (c.toNat - 32) (by omega) (by omega)
    have hneg : ¬(97 ≤ (Char.ofNat (c.toNat - 32)).toNat ∧
        (Char.ofNat (c.toNat - 32)).toNat ≤ 122) := by
      rw [htn]
      omega
    rw [hstep, upChar, if_neg hneg]
  · have hstep : upChar c = c := by
      rw [upChar, if_neg h]
    rw [hstep]
    exact hstep

theorem to_uppercase_idem (s : String) :
    to_uppercase (to_uppercase s) = to_uppercase s := by
  have hf : upChar ∘ upChar = upChar := funext upChar_idem
  show String.mk (List.map upChar (List.map upChar s.data)) =
    String.mk (List.map upChar s.data)
  rw [List.map_map, hf]

/-- The value `2^25 + 1` is not 24-bit representable: the float nearest to it
is `2^25`. -/
theorem fl32_pow25_succ : fl32 (33554433 : ℚ) = 33554432 := by
  have hlog : Int.log 2 (33554433 : ℚ) = 25 := by
    rw [Int.log_ofNat]
    exact_mod_cast Nat.log_eq_of_pow_le_of_lt_pow (by norm_num) (by norm_num)
  have habs : |(33554433 : ℚ)| = 33554433 := by norm_num
  have hfloor : ⌊(33554433 : ℚ) * 2 ^ ((24 : ℤ) - 1 - 25)⌋ = 8388608 := by
    rw [show ((24 : ℤ) - 1 - 25) = (-2 : ℤ) by norm_num]
    rw [show ((2 : ℚ) ^ (-2 : ℤ)) = 1/4 by norm_num]
    rw [Int.floor_eq_iff]
    norm_num
  have hfract : Int.fract ((33554433 : ℚ) * 2 ^ ((24 : ℤ) - 1 - 25)) = 1/4 := by
    rw [Int.fract, hfloor]
    rw [show ((24 : ℤ) - 1 - 25) = (-2 : ℤ) by norm_num]
    rw [show ((2 : ℚ) ^ (-2 : ℤ)) = 1/4 by norm_num]
    norm_num
  have hrhe : rhe ((33554433 : ℚ) * 2 ^ ((24 : ℤ) - 1 - 25)) = 8388608 := by
    rw [rhe, hfract, if_pos (by norm_num)]
    exact hfloor
  rw [fl32, roundPrec, if_neg (by norm_num), habs, hlog,
    if_neg (by norm_num : ¬(33554433 : ℚ) < 0)]
  simp only [Nat.cast_ofNat]
  rw [hrhe]
  norm_num

theorem fl32_eq_self {q : ℚ} (h : isRepr 24 q) : fl32 q = q :=
  roundPrec_eq_of_isRepr h

/-- Claim C1: in a debug build, each of the four `operator/` overload shapes
traps through the division-by-zero assertion exactly when the denominator's
magnitude is below `FLT_EPSILON`, and otherwise proceeds without trapping and
returns the (rounded) quotient. -/
theorem C1_div_guard (w : Float32) (d : ℚ) :
    (divF32Float w d = none ↔ |d| < FLT_EPSILON) ∧
    (divF32Double w d = none ↔ |d| < FLT_EPSILON) ∧
    (divFloatF32 d w = none ↔ |w.Value| < FLT_EPSILON) ∧
    (divDoubleF32 d w = none ↔ |w.Value| < FLT_EPSILON) ∧
    (FLT_EPSILON ≤ |d| →
      divF32Float w d = some (Float32.ofRat (fl32 (w.Value / d))) ∧
      divF32Double w d = some (fl64 (w.Value / d))) ∧
    (FLT_EPSILON ≤ |w.Value| →
      divFloatF32 d w = some (Float32.ofRat (fl32 (d / w.Value))) ∧
      divDoubleF32 d w = some (fl64 (d / w.Value))) := by
  refine ⟨MYSTIC_CHECK_eq_none_iff _ _, MYSTIC_CHECK_eq_none_iff _ _,
    MYSTIC_CHECK_eq_none_iff _ _, MYSTIC_CHECK_eq_none_iff _ _, ?_, ?_⟩
  · intro h
    exact ⟨MYSTIC_CHECK_eq_some _ _ (not_lt.mpr h),
      MYSTIC_CHECK_eq_some _ _ (not_lt.mpr h)⟩
  · intro h
    exact ⟨MYSTIC_CHECK_eq_some _ _ (not_lt.mpr h),
      MYSTIC_CHECK_eq_some _ _ (not_lt.mpr h)⟩

/-- Witness for C1 at the concrete division `Float32(6) / 2.0f = Float32(3)`:
the denominator is at least epsilon, so no trap fires. -/
theorem C1_div_guard_witness :
    FLT_EPSILON ≤ |(2 : ℚ)| ∧
    divF32Float (Float32.ofRat 6) 2 = some ⟨3⟩ := by
  have heps : FLT_EPSILON ≤ |(2 : ℚ)| := by norm_num [FLT_EPSILON]
  refine ⟨heps, ?_⟩
  have h := ((C1_div_guard (Float32.ofRat 6) 2).2.2.2.2.1 heps).1
  rw [h]
  have h6 : fl32 (6 : ℚ) = 6 :=
    fl32_eq_self (Or.inr ⟨6, 0, by norm_num, by norm_num⟩)
  have h3 : fl32 (3 : ℚ) = 3 :=
    fl32_eq_self (Or.inr ⟨3, 0, by norm_num, by norm_num⟩)
  rw [Value_ofRat, h6]
  norm_num
  rw [Float32.ofRat, h3, h3]

/-- Claim C2: `from_string` inverts `to_string` on all 16 StatusCode values. -/
theorem C2_round_trip : ∀ v : StatusCode, from_string (to_string v) = v := by
  decide

/-- Claim C3: any input whose uppercased form matches none of the 16 canonical
display strings parses to `StatusCode::OK`, the lenient fallback. -/
theorem C3_unknown_fallback (s : String) (h : to_uppercase s ∉ canonicalStrings) :
    from_string s = StatusCode.OK := by
  simp only [canonicalStrings, List.mem_cons, List.not_mem_nil, or_false,
    not_or] at h
  obtain ⟨h1, h2, h3, h4, h5, h6, h7, h8, h9, h10, h11, h12, h13, h14, h15, h16⟩ := h
  rw [from_string, from_string_upper]
  rw [if_neg h1, if_neg h2, if_neg h3, if_neg h4, if_neg h5, if_neg h6, if_neg h7,
    if_neg h8, if_neg h9, if_neg h10, if_neg h11, if_neg h12, if_neg h13,
    if_neg h14, if_neg h15, if_neg h16]

/-- Witness for C3 at the concrete garbage input "mystic!". -/
theorem C3_unknown_fallback_witness :
    to_uppercase "mystic!" ∉ canonicalStrings ∧
    from_string "mystic!" = StatusCode.OK :=
  ⟨by decide, C3_unknown_fallback "mystic!" (by decide)⟩

/-- Claim C4: `to_string` maps the 16 codes, in declaration order, to exactly
the 16 canonical display strings, and is injective on them. -/
theorem C4_to_string_canonical :
    allStatusCodes.map to_string = canonicalStrings ∧
    ∀ a b : StatusCode, to_string a = to_string b → a = b :=
  ⟨by decide, by decide⟩

/-- Witness for C4: the injectivity implication discharged at a concrete
pair of codes with equal display strings. -/
theorem C4_to_string_canonical_witness :
    to_string StatusCode.ABORT = to_string StatusCode.ABORT ∧
    StatusCode.ABORT = StatusCode.ABORT :=
  ⟨rfl, C4_to_string_canonical.2 StatusCode.ABORT StatusCode.ABORT rfl⟩

/-- Claim C5: `from_string` is case-agnostic; every string parses the same as
its uppercased form, and in particular "not found" parses like "NOT FOUND". -/
theorem C5_case_insensitive :
    (∀ s : String, from_string s = from_string (to_uppercase s)) ∧
    from_string "not found" = StatusCode.NOT_FOUND ∧
    from_string "NOT FOUND" = StatusCode.NOT_FOUND := by
  refine ⟨?_, by decide, by decide⟩
  intro s
  show from_string_upper (to_uppercase s) =
    from_string_upper (to_uppercase (to_uppercase s))
  rw [to_uppercase_idem]

/-- Counterexample for C6 as stated: with the wider operand an `int64_t`, the
sum is not computed in the wider type.  At `Float32(0) + 33554433` (the int64
value `2^25 + 1`), the code converts the integer operand to float, which
rounds to `2^25`, so the result is `33554432`, not the wide-integer sum
`0 + 33554433`. -/
theorem C6_counterexample :
    addF32Int64 (Float32.ofRat 0) 33554433 = 33554432 ∧
    addF32Int64 (Float32.ofRat 0) 33554433 ≠ 0 + 33554433 := by
  have h0 : fl32 (0 : ℚ) = 0 := by
    rw [fl32, roundPrec, if_pos rfl]
  have hc : ((33554433 : ℤ) : ℚ) = (33554433 : ℚ) := by norm_num
  have h32 : fl32 (33554432 : ℚ) = 33554432 :=
    fl32_eq_self (Or.inr ⟨8388608, 2, by norm_num, by norm_num⟩)
  have htr : truncToInt (33554432 : ℚ) = 33554432 := by
    have h := truncToInt_intCast 33554432
    push_cast at h
    exact h
  have hval : addF32Int64 (Float32.ofRat 0) 33554433 = 33554432 := by
    rw [addF32Int64, Value_ofRat, h0, hc, fl32_pow25_succ, zero_add, h32, htr]
  exact ⟨hval, by rw [hval]; norm_num⟩

/-- Claim C6 as amended: the result type is the wider operand's type; with a
wider floating-point operand (`double`) the sum is computed in the wider type;
with a wider integer operand (`int64_t`) both operands are converted to float
and the sum is computed in float before conversion back, which is exact for
integer inputs of magnitude at most `2^20`; concretely
`Float32(3) + int64_t(4)` yields the int64 value `7` in both operand orders. -/
theorem C6_amended :
    (∀ (w : Float32) (y : ℚ),
      addF32Double w y = fl64 (w.Value + y) ∧
      addDoubleF32 y w = fl64 (y + w.Value)) ∧
    (∀ x n : ℤ, |x| ≤ 2 ^ 20 → |n| ≤ 2 ^ 20 →
      addF32Int64 (Float32.ofRat (x : ℚ)) n = x + n ∧
      addInt64F32 n (Float32.ofRat (x : ℚ)) = x + n) ∧
    addF32Int64 (Float32.ofRat 3) 4 = 7 ∧
    addInt64F32 4 (Float32.ofRat 3) = 7 := by
  have main : ∀ x n : ℤ, |x| ≤ 2 ^ 20 → |n| ≤ 2 ^ 20 →
      addF32Int64 (Float32.ofRat (x : ℚ)) n = x + n ∧
      addInt64F32 n (Float32.ofRat (x : ℚ)) = x + n := by
    intro x n hx hn
    have hx24 : |x| < 2 ^ 24 := lt_of_le_of_lt hx (by norm_num)
    have hn24 : |n| < 2 ^ 24 := lt_of_le_of_lt hn (by norm_num)
    have hsum : |x + n| < 2 ^ 24 :=
      lt_of_le_of_lt (abs_add x n)
        (lt_of_le_of_lt (add_le_add hx hn) (by norm_num))
    have hcast : (x : ℚ) + (n : ℚ) = ((x + n : ℤ) : ℚ) := by push_cast; ring
    have hcast2 : (n : ℚ) + (x : ℚ) = ((x + n : ℤ) : ℚ) := by push_cast; ring
    constructor
    · rw [addF32Int64, Value_ofRat, fl32_intCast hx24, fl32_intCast hn24, hcast,
        fl32_intCast hsum, truncToInt_intCast]
    · rw [addInt64F32, Value_ofRat, fl32_intCast hx24, fl32_intCast hn24, hcast2,
        fl32_intCast hsum, truncToInt_intCast]
  refine ⟨fun w y => ⟨rfl, rfl⟩, main, ?_, ?_⟩
  · have h := (main 3 4 (by norm_num) (by norm_num)).1
    push_cast at h
    exact h
  · have h := (main 3 4 (by norm_num) (by norm_num)).2
    push_cast at h
    exact h

/-- Witness for C6 (amended) at `Float32(3) + int64_t(4) = 7`. -/
theorem C6_amended_witness :
    |(3 : ℤ)| ≤ 2 ^ 20 ∧ |(4 : ℤ)| ≤ 2 ^ 20 ∧
    addF32Int64 (Float32.ofRat ((3 : ℤ) : ℚ)) 4 = 3 + 4 :=
  ⟨by norm_num, by norm_num, (C6_amended.2.1 3 4 (by norm_num) (by norm_num)).1⟩

/-- Claim C7: the narrow/same-width `operator+` overloads return the wrapper
type, whose stored value is the float-rounded sum; for float operands the
stored value is exactly `fl32(x + y)` in both operand orders, and for
same-or-narrower integer operands the sum is exact whenever both inputs are
integers of magnitude at most `2^20` (well inside exact float range). -/
theorem C7_narrow_add :
    (∀ (w : Float32) (y : ℚ),
      (addF32Float w y).Value = fl32 (w.Value + y) ∧
      (addFloatF32 y w).Value = fl32 (y + w.Value)) ∧
    (∀ x n : ℤ, |x| ≤ 2 ^ 20 → |n| ≤ 2 ^ 20 →
      (addF32Int32 (Float32.ofRat (x : ℚ)) n).Value = ((x + n : ℤ) : ℚ) ∧
      (addInt32F32 n (Float32.ofRat (x : ℚ))).Value = ((x + n : ℤ) : ℚ)) := by
  constructor
  · intro w y
    constructor
    · rw [addF32Float, Value_ofRat, fl32_idem]
    · rw [addFloatF32, Value_ofRat, fl32_idem]
  · intro x n hx hn
    have hx24 : |x| < 2 ^ 24 := lt_of_le_of_lt hx (by norm_num)
    have hn24 : |n| < 2 ^ 24 := lt_of_le_of_lt hn (by norm_num)
    have hsum : |x + n| < 2 ^ 24 :=
      lt_of_le_of_lt (abs_add x n)
        (lt_of_le_of_lt (add_le_add hx hn) (by norm_num))
    have hcast : (x : ℚ) + (n : ℚ) = ((x + n : ℤ) : ℚ) := by push_cast; ring
    have hcast2 : (n : ℚ) + (x : ℚ) = ((x + n : ℤ) : ℚ) := by push_cast; ring
    constructor
    · rw [addF32Int32, Value_ofRat, fl32_idem, Value_ofRat, fl32_intCast hx24,
        fl32_intCast hn24, hcast, fl32_intCast hsum]
    · rw [addInt32F32, Value_ofRat, fl32_idem, Value_ofRat, fl32_intCast hx24,
        fl32_intCast hn24, hcast2, fl32_intCast hsum]

/-- Witness for C7 at `Float32(3) + int32_t(4)`: the wrapper result holds 7. -/
theorem C7_narrow_add_witness :
    |(3 : ℤ)| ≤ 2 ^ 20 ∧ |(4 : ℤ)| ≤ 2 ^ 20 ∧
    (addF32Int32 (Float32.ofRat ((3 : ℤ) : ℚ)) 4).Value = ((7 : ℤ) : ℚ) := by
  refine ⟨by norm_num, by norm_num, ?_⟩
  exact (C7_narrow_add.2 3 4 (by norm_num) (by norm_num)).1

/-- Claim C8: the `to_string` switch reaches its fatal `unreachable()` default
branch for every raw enumerator value outside the 16 defined ones, and never
reaches it for a defined value. -/
theorem C8_unreachable_trap :
    (∀ n : ℕ, 16 ≤ n → to_string_code n = none) ∧
    (∀ v : StatusCode, to_string_code v.toOrdinal = some (to_string v)) := by
  constructor
  · intro n hn
    have hne : ∀ m : ℕ, m < 16 → ¬ n = m := fun m hm => by omega
    rw [to_string_code,
      if_neg (hne 0 (by norm_num)), if_neg (hne 1 (by norm_num)),
      if_neg (hne 2 (by norm_num)), if_neg (hne 3 (by norm_num)),
      if_neg (hne 4 (by norm_num)), if_neg (hne 5 (by norm_num)),
      if_neg (hne 6 (by norm_num)), if_neg (hne 7 (by norm_num)),
      if_neg (hne 8 (by norm_num)), if_neg (hne 9 (by norm_num)),
      if_neg (hne 10 (by norm_num)), if_neg (hne 11 (by norm_num)),
      if_neg (hne 12 (by norm_num)), if_neg (hne 13 (by norm_num)),
      if_neg (hne 14 (by norm_num)), if_neg (hne 15 (by norm_num))]
  · intro v
    cases v <;> rfl

/-- Witness for C8 at the out-of-range raw value 16 (= 0x0010). -/
theorem C8_unreachable_trap_witness :
    16 ≤ 16 ∧ to_string_code 16 = none :=
  ⟨le_refl 16, C8_unreachable_trap.1 16 (le_refl 16)⟩

/-- Claim C9: the enumerators carry the ordinal values 0 through 15 in
declaration order, a bijection onto 0..15. -/
theorem C9_ordinals :
    allStatusCodes.map StatusCode.toOrdinal = List.range 16 ∧
    (∀ a b : StatusCode, a.toOrdinal = b.toOrdinal → a = b) ∧
    (∀ n < 16, ∃ v : StatusCode, v.toOrdinal = n) :=
  ⟨by decide, by decide, by decide⟩

/-- Witness for C9: surjectivity discharged at the concrete ordinal 11. -/
theorem C9_ordinals_witness : 11 < 16 ∧ ∃ v : StatusCode, v.toOrdinal = 11 :=
  ⟨by norm_num, C9_ordinals.2.2 11 (by norm_num)⟩

/-- Claim C10: the widening division overload whose denominator is a `double`
still guards against `FLT_EPSILON`, the float epsilon; a denominator with
magnitude between `DBL_EPSILON` and `FLT_EPSILON` is classified near-zero and
trapped even though it is far above the double's own epsilon. -/
theorem C10_flt_epsilon_guard (w : Float32) (d : ℚ)
    (_hlo : DBL_EPSILON ≤ |d|) (hhi : |d| < FLT_EPSILON) :
    divF32Double w d = none :=
  (MYSTIC_CHECK_eq_none_iff _ _).mpr hhi

/-- Witness for C10 at the concrete double denominator `2^-30`. -/
theorem C10_flt_epsilon_guard_witness :
    DBL_EPSILON ≤ |(1/1073741824 : ℚ)| ∧ |(1/1073741824 : ℚ)| < FLT_EPSILON ∧
    divF32Double (Float32.ofRat 1) (1/1073741824) = none := by
  have h1 : DBL_EPSILON ≤ |(1/1073741824 : ℚ)| := by
    rw [abs_of_pos (by norm_num)]
    norm_num [DBL_EPSILON]
  have h2 : |(1/1073741824 : ℚ)| < FLT_EPSILON := by
    rw [abs_of_pos (by norm_num)]
    norm_num [FLT_EPSILON]
  exact ⟨h1, h2, C10_flt_epsilon_guard (Float32.ofRat 1) _ h1 h2⟩

end MysticCore
